import Mathlib

/-!
Verification of the patina text-editing core (crates/patina-core) against its
specification.  Strings are modelled as `List Char` (Rust `&str`/`String`,
character-addressed as in the `ropey`-backed buffer; the sources under test use
character indices throughout).  The rope itself is modelled by its observable
content, with the `ropey` line/offset primitives (`len_lines`, `line`,
`line_to_char`, `char_to_line`) given by their documented semantics: lines are
separated by the newline character, a line includes its terminating newline,
and an empty buffer has one empty line.
-/

namespace Patina

/-! ## Rope primitives (semantics of the `ropey` operations used by `Buffer`) -/

namespace Rope

/-- Number of newline characters in the text. -/
def countNl : List Char → Nat
  | [] => 0
  | c :: rest => countNl rest + (if c = '\n' then 1 else 0)

/-- `Rope::len_lines`: number of lines, i.e. newline count plus one. -/
def len_lines (s : List Char) : Nat := countNl s + 1

/-- `Rope::line(i)`: the i-th line, including its terminating newline when it
has one.  Out-of-range indices yield the empty list (the Rust call would
panic; all uses below are in range). -/
def line : List Char → Nat → List Char
  | [], _ => []
  | c :: rest, 0 => if c = '\n' then ['\n'] else c :: line rest 0
  | c :: rest, n + 1 => if c = '\n' then line rest n else line rest (n + 1)

/-- `Rope::line_to_char(n)`: character offset of the start of line `n`. -/
def line_to_char : List Char → Nat → Nat
  | _, 0 => 0
  | [], _ + 1 => 0
  | c :: rest, n + 1 =>
    if c = '\n' then 1 + line_to_char rest n else 1 + line_to_char rest (n + 1)

/-- `Rope::char_to_line(idx)`: the line containing character `idx`, i.e. the
number of newline characters strictly before position `idx`. -/
def char_to_line : List Char → Nat → Nat
  | [], _ => 0
  | _ :: _, 0 => 0
  | c :: rest, i + 1 => (if c = '\n' then 1 else 0) + char_to_line rest i

end Rope

/-! ## Buffer (crates/patina-core/src/buffer.rs) -/

/-- `Buffer`: a text buffer with a modified flag. -/
structure Buffer where
  rope : List Char
  modified : Bool
deriving DecidableEq, Repr

namespace Buffer

/-- `Buffer::new`. -/
def new : Buffer := ⟨[], false⟩

/-- `Buffer::from_str`. -/
def from_str (text : List Char) : Buffer := ⟨text, false⟩

/-- `Buffer::text`. -/
def text (b : Buffer) : List Char := b.rope

/-- `Buffer::len_lines`. -/
def len_lines (b : Buffer) : Nat := Rope.len_lines b.rope

/-- `Buffer::len_chars`. -/
def len_chars (b : Buffer) : Nat := b.rope.length

/-- `Buffer::is_empty`. -/
def is_empty (b : Buffer) : Bool := b.rope.length == 0

/-- `Buffer::line`. -/
def line (b : Buffer) (line_idx : Nat) : Option (List Char) :=
  if line_idx < Rope.len_lines b.rope then some (Rope.line b.rope line_idx) else none

/-- `Buffer::insert`. -/
def insert (b : Buffer) (char_idx : Nat) (t : List Char) : Buffer :=
  ⟨b.rope.take char_idx ++ t ++ b.rope.drop char_idx, true⟩

/-- `Buffer::delete` (`rope.remove(start..end)`). -/
def delete (b : Buffer) (start stop : Nat) : Buffer :=
  ⟨b.rope.take start ++ b.rope.drop stop, true⟩

/-- `Buffer::replace`: remove the range, then insert at `start`. -/
def replace (b : Buffer) (start stop : Nat) (t : List Char) : Buffer :=
  let r := b.rope.take start ++ b.rope.drop stop
  ⟨r.take start ++ t ++ r.drop start, true⟩

/-- `Buffer::line_col_to_char`: start of line plus the column clamped by
`line_len.saturating_sub(1)`, where `line_len` is the rope line's length
(including its trailing newline). -/
def line_col_to_char (b : Buffer) (ln col : Nat) : Nat :=
  let line_start := Rope.line_to_char b.rope ln
  let line_len := (Rope.line b.rope ln).length
  line_start + min col (line_len - 1)

/-- `Buffer::char_to_line_col`. -/
def char_to_line_col (b : Buffer) (char_idx : Nat) : Nat × Nat :=
  let ln := Rope.char_to_line b.rope char_idx
  let line_start := Rope.line_to_char b.rope ln
  (ln, char_idx - line_start)

/-- `Buffer::is_modified`. -/
def is_modified (b : Buffer) : Bool := b.modified

/-- `Buffer::mark_saved`. -/
def mark_saved (b : Buffer) : Buffer := ⟨b.rope, false⟩

/-- `Buffer::slice`. -/
def slice (b : Buffer) (start stop : Nat) : List Char :=
  (b.rope.take stop).drop start

end Buffer

/-- Length of a line excluding its trailing newline, as the specification
describes it (`lineLenExclNewline`). -/
def lineLenExclNl (s : List Char) (i : Nat) : Nat :=
  let l := Rope.line s i
  if l.getLast? = some '\n' then l.length - 1 else l.length

/-! ## Rope lemmas -/

namespace Rope

theorem countNl_append (xs ys : List Char) :
    countNl (xs ++ ys) = countNl xs + countNl ys := by
  induction xs with
  | nil => simp [countNl]
  | cons c rest ih => simp [countNl, ih]; omega

theorem char_to_line_succ (c : Char) (rest : List Char) (i : Nat) :
    char_to_line (c :: rest) (i + 1)
      = (if c = '\n' then 1 else 0) + char_to_line rest i := rfl

theorem char_to_line_succ_nl (rest : List Char) (i : Nat) :
    char_to_line ('\n' :: rest) (i + 1) = 1 + char_to_line rest i := by
  simp [char_to_line]

theorem char_to_line_succ_other (c : Char) (rest : List Char) (i : Nat)
    (hc : c ≠ '\n') : char_to_line (c :: rest) (i + 1) = char_to_line rest i := by
  simp [char_to_line, hc]

/-- Successive line starts differ by the length of the line between them. -/
theorem line_to_char_succ (s : List Char) (n : Nat) (h : n < len_lines s) :
    line_to_char s (n + 1) = line_to_char s n + (line s n).length := by
  induction s generalizing n with
  | nil =>
    have : n = 0 := by simp [len_lines, countNl] at h; omega
    subst this
    simp [line_to_char, line]
  | cons c rest ih =>
    by_cases hc : c = '\n'
    · subst hc
      cases n with
      | zero => simp [line_to_char, line]
      | succ n =>
        have hn : n < len_lines rest := by
          simp [len_lines, countNl] at h ⊢; omega
        simp [line_to_char, line, ih n hn] <;> omega
    · cases n with
      | zero =>
        have hn : 0 < len_lines rest := Nat.succ_pos _
        have hih := ih 0 hn
        have hzero : line_to_char rest 0 = 0 := by cases rest <;> rfl
        rw [hzero, Nat.zero_add] at hih
        simp [line_to_char, line, hc, hih] <;> omega
      | succ n =>
        have hn : n + 1 < len_lines rest := by
          simp [len_lines, countNl, hc] at h ⊢; omega
        simp [line_to_char, line, hc, ih (n + 1) hn] <;> omega

/-- Any in-line offset maps back to its own line: for `n < len_lines s` and
`k ≤ (line s n).length - 1`, the character at `line_to_char s n + k` lies on
line `n`. -/
theorem char_to_line_start_add (s : List Char) (n k : Nat) (h : n < len_lines s)
    (hk : k ≤ (line s n).length - 1) :
    char_to_line s (line_to_char s n + k) = n := by
  induction s generalizing n k with
  | nil =>
    have hn : n = 0 := by simp [len_lines, countNl] at h; omega
    subst hn
    have hk0 : k = 0 := by simp [line] at hk; omega
    subst hk0
    simp [line_to_char, char_to_line]
  | cons c rest ih =>
    by_cases hc : c = '\n'
    · subst hc
      cases n with
      | zero =>
        have hk0 : k = 0 := by simp [line] at hk; omega
        subst hk0
        simp [line_to_char, char_to_line]
      | succ n =>
        have hn : n < len_lines rest := by
          simp [len_lines, countNl] at h ⊢; omega
        have hk' : k ≤ (line rest n).length - 1 := by
          simpa [line] using hk
        have hih := ih n k hn hk'
        have harg : line_to_char ('\n' :: rest) (n + 1) + k
            = (line_to_char rest n + k) + 1 := by
          simp [line_to_char] <;> omega
        rw [harg, char_to_line_succ_nl, hih]
        omega
    · cases n with
      | zero =>
        cases k with
        | zero => simp [line_to_char, char_to_line]
        | succ k =>
          have hk' : k ≤ (line rest 0).length - 1 := by
            simp [line, hc] at hk
            omega
          have h0 : (0 : Nat) < len_lines rest := Nat.succ_pos _
          have hih := ih 0 k h0 hk'
          have hzero : line_to_char rest 0 = 0 := by
            cases rest <;> rfl
          rw [hzero, Nat.zero_add] at hih
          have harg : line_to_char (c :: rest) 0 + (k + 1) = k + 1 := by
            simp [line_to_char]
          rw [harg, char_to_line_succ_other _ _ _ hc, hih]
      | succ n =>
        have hn : n + 1 < len_lines rest := by
          simp [len_lines, countNl, hc] at h ⊢; omega
        have hk' : k ≤ (line rest (n + 1)).length - 1 := by
          simpa [line, hc] using hk
        have hih := ih (n + 1) k hn hk'
        have harg : line_to_char (c :: rest) (n + 1) + k
            = (line_to_char rest (n + 1) + k) + 1 := by
          simp [line_to_char, hc] <;> omega
        rw [harg, char_to_line_succ_other _ _ _ hc, hih]

end Rope

/-! ## Claims about Buffer -/

/-- C1: the claim says `lineColToChar(line, col)` returns the start-of-line
offset plus `min(col, L-1)` with `L` the line length excluding the trailing
newline, never addressing the newline itself.  This is false: the code clamps
with the rope line length *including* its trailing newline.  On the buffer
"ab\ncd", line 0 and column 2, the code returns offset 2 — the newline —
while the claimed formula gives 1. -/
theorem C1_clamp_counterexample :
    (Buffer.from_str (String.toList "ab\ncd")).line_col_to_char 0 2 = 2
  ∧ Rope.line_to_char (String.toList "ab\ncd") 0
      + min 2 (lineLenExclNl (String.toList "ab\ncd") 0 - 1) = 1
  ∧ (String.toList "ab\ncd")[2]? = some '\n' := by decide

/-- C1 (amended): for every line index `line < lenLines()`, the offset
returned by `lineColToChar(line, col)` is the start-of-line offset plus
`min(col, L-1)` where `L` is the full length of the line *including* its
trailing newline (equivalently, the distance between consecutive line starts);
the offset never addresses past the line's last character counting the
trailing newline, but it may land on that newline. -/
theorem C1_line_col_to_char_clamped (b : Buffer) (ln col : Nat)
    (h : ln < b.len_lines) :
    b.line_col_to_char ln col
      = Rope.line_to_char b.rope ln
        + min col
            ((Rope.line_to_char b.rope (ln + 1) - Rope.line_to_char b.rope ln) - 1)
  ∧ b.line_col_to_char ln col
      ≤ Rope.line_to_char b.rope ln + ((Rope.line b.rope ln).length - 1) := by
  have hsucc := Rope.line_to_char_succ b.rope ln h
  constructor
  · unfold Buffer.line_col_to_char
    rw [hsucc]
    have hlen : Rope.line_to_char b.rope ln + (Rope.line b.rope ln).length
        - Rope.line_to_char b.rope ln = (Rope.line b.rope ln).length := by omega
    rw [hlen]
  · exact Nat.add_le_add_left (Nat.min_le_right _ _) _

/-- Witness for C1_line_col_to_char_clamped at the buffer "ab\ncd", line 1,
column 5. -/
theorem C1_line_col_to_char_clamped_witness :
    1 < (Buffer.from_str (String.toList "ab\ncd")).len_lines
  ∧ ((Buffer.from_str (String.toList "ab\ncd")).line_col_to_char 1 5
      = Rope.line_to_char (String.toList "ab\ncd") 1
        + min 5 ((Rope.line_to_char (String.toList "ab\ncd") 2
            - Rope.line_to_char (String.toList "ab\ncd") 1) - 1)
    ∧ (Buffer.from_str (String.toList "ab\ncd")).line_col_to_char 1 5
      ≤ Rope.line_to_char (String.toList "ab\ncd") 1
        + ((Rope.line (String.toList "ab\ncd") 1).length - 1)) :=
  ⟨by decide, C1_line_col_to_char_clamped (Buffer.from_str (String.toList "ab\ncd")) 1 5 (by decide)⟩

/-- C7: for every valid `(line, col)` within the line's bounds,
`charToLineCol(lineColToChar(line, col))` returns a position on the same
line. -/
theorem C7_coordinate_inverse (b : Buffer) (ln col : Nat) (h : ln < b.len_lines)
    (hcol : col ≤ (Rope.line b.rope ln).length) :
    (b.char_to_line_col (b.line_col_to_char ln col)).1 = ln := by
  have hmin : min col ((Rope.line b.rope ln).length - 1)
      ≤ (Rope.line b.rope ln).length - 1 := Nat.min_le_right _ _
  have := Rope.char_to_line_start_add b.rope ln
    (min col ((Rope.line b.rope ln).length - 1)) h hmin
  simpa [Buffer.char_to_line_col, Buffer.line_col_to_char] using this

/-- Witness for C7_coordinate_inverse at the buffer "ab\ncd", line 1,
column 1. -/
theorem C7_coordinate_inverse_witness :
    1 < (Buffer.from_str (String.toList "ab\ncd")).len_lines
  ∧ 1 ≤ (Rope.line (String.toList "ab\ncd") 1).length
  ∧ ((Buffer.from_str (String.toList "ab\ncd")).char_to_line_col
      ((Buffer.from_str (String.toList "ab\ncd")).line_col_to_char 1 1)).1 = 1 :=
  ⟨by decide, by decide,
    C7_coordinate_inverse (Buffer.from_str (String.toList "ab\ncd")) 1 1
      (by decide) (by decide)⟩

/-- C8: `lenLines() ≥ 1` for every buffer; a fresh empty buffer has exactly
one, empty, line; the invariant is preserved by insert, delete and replace;
and inserting "\n" at `lenChars()` increases `lenLines()` by exactly 1. -/
theorem C8_len_lines_invariant :
    (∀ b : Buffer, 1 ≤ b.len_lines)
  ∧ Buffer.new.len_lines = 1
  ∧ Buffer.new.line 0 = some []
  ∧ (∀ (b : Buffer) (i : Nat) (t : List Char), 1 ≤ (b.insert i t).len_lines)
  ∧ (∀ (b : Buffer) (i j : Nat), 1 ≤ (b.delete i j).len_lines)
  ∧ (∀ (b : Buffer) (i j : Nat) (t : List Char), 1 ≤ (b.replace i j t).len_lines)
  ∧ (∀ b : Buffer, (b.insert b.len_chars ['\n']).len_lines = b.len_lines + 1) := by
  refine ⟨fun _ => Nat.succ_le_succ (Nat.zero_le _), rfl, rfl,
    fun _ _ _ => Nat.succ_le_succ (Nat.zero_le _),
    fun _ _ _ => Nat.succ_le_succ (Nat.zero_le _),
    fun _ _ _ _ => Nat.succ_le_succ (Nat.zero_le _),
    fun b => ?_⟩
  simp [Buffer.insert, Buffer.len_chars, Buffer.len_lines, Rope.len_lines,
    List.take_length, List.drop_length, Rope.countNl_append, Rope.countNl]

/-! ## Selection (crates/patina-core/src/selection.rs) -/

/-- `Position`: a line/column position. -/
structure Position where
  line : Nat
  col : Nat
deriving DecidableEq, Repr

/-- `Selection`: an anchor/head pair. -/
structure Selection where
  anchor : Position
  head : Position
deriving DecidableEq, Repr

/-- `Selection::cursor`. -/
def Selection.cursor (pos : Position) : Selection := ⟨pos, pos⟩

/-! ## History (crates/patina-core/src/history.rs) -/

/-- `Edit`: an undoable edit operation. -/
structure Edit where
  position : Nat
  deleted : List Char
  inserted : List Char
  cursor_before : Selection
  cursor_after : Selection
deriving DecidableEq, Repr

namespace Edit

/-- `Edit::insert`. -/
def insert (position : Nat) (text : List Char)
    (cursor_before cursor_after : Selection) : Edit :=
  ⟨position, [], text, cursor_before, cursor_after⟩

/-- `Edit::delete`. -/
def delete (position : Nat) (text : List Char)
    (cursor_before cursor_after : Selection) : Edit :=
  ⟨position, text, [], cursor_before, cursor_after⟩

/-- `Edit::replace`. -/
def replace (position : Nat) (deleted inserted : List Char)
    (cursor_before cursor_after : Selection) : Edit :=
  ⟨position, deleted, inserted, cursor_before, cursor_after⟩

end Edit

/-- `History`: bounded undo/redo stacks.  The stacks are Rust `Vec`s: index 0
is the bottom (oldest entry), push/pop act on the end. -/
structure History where
  undo_stack : List Edit
  redo_stack : List Edit
  max_size : Nat
deriving DecidableEq, Repr

namespace History

/-- `History::new`. -/
def new : History := ⟨[], [], 1000⟩

/-- `History::with_max_size`. -/
def with_max_size (m : Nat) : History := ⟨[], [], m⟩

/-- `History::default` (the derived `Default`: empty stacks, `max_size = 0`). -/
def defaultHistory : History := ⟨[], [], 0⟩

/-- `History::record`: clear the redo stack, push onto the undo stack, remove
the front (oldest) entry when the length exceeds `max_size`. -/
def record (h : History) (e : Edit) : History :=
  { undo_stack :=
      if h.max_size < (h.undo_stack ++ [e]).length
      then (h.undo_stack ++ [e]).drop 1
      else h.undo_stack ++ [e]
    redo_stack := []
    max_size := h.max_size }

/-- `History::undo`: pop the undo stack, push the edit onto the redo stack,
return it. -/
def undo (h : History) : Option Edit × History :=
  match h.undo_stack.getLast? with
  | some e => (some e, ⟨h.undo_stack.dropLast, h.redo_stack ++ [e], h.max_size⟩)
  | none => (none, h)

/-- `History::redo`: pop the redo stack, push the edit onto the undo stack,
return it. -/
def redo (h : History) : Option Edit × History :=
  match h.redo_stack.getLast? with
  | some e => (some e, ⟨h.undo_stack ++ [e], h.redo_stack.dropLast, h.max_size⟩)
  | none => (none, h)

/-- `History::can_undo`. -/
def can_undo (h : History) : Bool := !h.undo_stack.isEmpty

/-- `History::can_redo`. -/
def can_redo (h : History) : Bool := !h.redo_stack.isEmpty

/-- `History::clear`. -/
def clear (h : History) : History := ⟨[], [], h.max_size⟩

/-- `History::undo_count`. -/
def undo_count (h : History) : Nat := h.undo_stack.length

/-- `History::redo_count`. -/
def redo_count (h : History) : Nat := h.redo_stack.length

/-- Record a whole sequence of edits in order. -/
def record_all (h : History) (es : List Edit) : History := es.foldl record h

/-- Call `undo` `n` times, collecting the returned values. -/
def undo_times : History → Nat → List (Option Edit) × History
  | h, 0 => ([], h)
  | h, n + 1 =>
    let p := undo h
    let q := undo_times p.2 n
    (p.1 :: q.1, q.2)

/-- Call `redo` `n` times, collecting the returned values. -/
def redo_times : History → Nat → List (Option Edit) × History
  | h, 0 => ([], h)
  | h, n + 1 =>
    let p := redo h
    let q := redo_times p.2 n
    (p.1 :: q.1, q.2)

theorem getLast?_app {α : Type} (l : List α) (a : α) :
    (l ++ [a]).getLast? = some a := by
  induction l with
  | nil => rfl
  | cons x xs ih =>
    rw [List.cons_append, List.getLast?_cons, ih]
    rfl

theorem dropLast_app {α : Type} (l : List α) (a : α) :
    (l ++ [a]).dropLast = l := by
  simp

/-- Recording a sequence that fits within `max_size` just appends it. -/
theorem record_all_app (m : Nat) :
    ∀ (es u : List Edit), u.length + es.length ≤ m →
      record_all ⟨u, [], m⟩ es = ⟨u ++ es, [], m⟩ := by
  intro es
  induction es with
  | nil => intro u h; simp [record_all]
  | cons e es ih =>
    intro u h
    have hle : ¬ m < (u ++ [e]).length := by simp at h ⊢; omega
    have hle' : ¬ m < u.length + 1 := by simp at h; omega
    have hrec : record ⟨u, [], m⟩ e = ⟨u ++ [e], [], m⟩ := by
      simp [record, hle, hle']
    have : record_all ⟨u, [], m⟩ (e :: es) = record_all ⟨u ++ [e], [], m⟩ es := by
      simp [record_all, List.foldl_cons, hrec]
    rw [this, ih (u ++ [e]) (by simp at h ⊢; omega)]
    simp

/-- Undoing `undo_count` times empties the undo stack, returning the edits
newest-first and pushing them all onto the redo stack. -/
theorem undo_times_all (m : Nat) :
    ∀ (u r : List Edit), undo_times ⟨u, r, m⟩ u.length
      = (u.reverse.map some, ⟨[], r ++ u.reverse, m⟩) := by
  intro u
  induction u using List.reverseRecOn with
  | nil => intro r; simp [undo_times]
  | append_singleton u e ih =>
    intro r
    have hlen : (u ++ [e]).length = u.length + 1 := by simp
    rw [hlen]
    have hundo : undo ⟨u ++ [e], r, m⟩ = (some e, ⟨u, r ++ [e], m⟩) := by
      simp [undo, getLast?_app]
    simp only [undo_times, hundo, ih (r ++ [e])]
    simp

/-- Redoing `redo_count` times empties the redo stack, returning the edits
newest-first and pushing them all back onto the undo stack. -/
theorem redo_times_all (m : Nat) :
    ∀ (r u : List Edit), redo_times ⟨u, r, m⟩ r.length
      = (r.reverse.map some, ⟨u ++ r.reverse, [], m⟩) := by
  intro r
  induction r using List.reverseRecOn with
  | nil => intro u; simp [redo_times]
  | append_singleton r e ih =>
    intro u
    have hlen : (r ++ [e]).length = r.length + 1 := by simp
    rw [hlen]
    have hredo : redo ⟨u, r ++ [e], m⟩ = (some e, ⟨u ++ [e], r, m⟩) := by
      simp [redo, getLast?_app]
    simp only [redo_times, hredo, ih (u ++ [e])]
    simp

end History

/-- Fixed cursor used in concrete history examples. -/
def sel0 : Selection := Selection.cursor ⟨0, 0⟩

/-- Concrete edits used in concrete history examples. -/
def edA : Edit := Edit.insert 0 ['a'] sel0 sel0

def edB : Edit := Edit.insert 1 ['b'] sel0 sel0

/-- C3: the claim quantifies over *every* History.  It fails on histories the
constructors also allow: with `max_size = 0` (as produced by the derived
`Default` or `with_max_size(0)`) the freshly recorded edit is itself evicted,
so it is not the most recent undo entry; and when the undo stack already
exceeds `max_size`, a single eviction does not restore `undoCount ≤ max_size`. -/
theorem C3_record_counterexample :
    ((History.with_max_size 0).record edA).undo_stack = []
  ∧ ¬ ((History.with_max_size 0).record edA).undo_stack.getLast? = some edA
  ∧ ((History.mk [edA, edA] [] 1).record edB).undo_stack.length = 2
  ∧ ¬ ((History.mk [edA, edA] [] 1).record edB).undo_stack.length ≤ 1 := by
  decide

/-- C3 (amended): for every History with `max_size ≥ 1` whose undo stack
satisfies the invariant `undoCount ≤ max_size` (as every history reachable
through the API does), `record(e)` leaves the redo stack empty, makes `e` the
most recent undo entry, keeps `undoCount ≤ max_size`, evicts exactly the
oldest entry when the push would exceed `max_size` and otherwise evicts
nothing — so the surviving entries keep their chronological order. -/
theorem C3_record_invariant (h : History) (e : Edit) (hm : 1 ≤ h.max_size)
    (hinv : h.undo_stack.length ≤ h.max_size) :
    (h.record e).redo_stack = []
  ∧ (h.record e).undo_stack.getLast? = some e
  ∧ (h.record e).undo_stack.length ≤ h.max_size
  ∧ (h.max_size < h.undo_stack.length + 1 →
      (h.record e).undo_stack = (h.undo_stack ++ [e]).drop 1)
  ∧ (h.undo_stack.length + 1 ≤ h.max_size →
      (h.record e).undo_stack = h.undo_stack ++ [e]) := by
  by_cases hlt : h.max_size < (h.undo_stack ++ [e]).length
  · have hlen : h.undo_stack.length = h.max_size := by simp at hlt; omega
    obtain ⟨c, u, hcu⟩ : ∃ c u, h.undo_stack = c :: u := by
      cases hu : h.undo_stack with
      | nil => rw [hu] at hlen; simp at hlen; omega
      | cons c u => exact ⟨c, u, rfl⟩
    have hrec : (h.record e).undo_stack = (h.undo_stack ++ [e]).drop 1 := by
      simp only [History.record, if_pos hlt]
    have hdrop : (h.undo_stack ++ [e]).drop 1 = u ++ [e] := by rw [hcu]; rfl
    have hulen : u.length + 1 = h.max_size := by
      rw [hcu] at hlen; simpa using hlen
    refine ⟨rfl, ?_, ?_, ?_, ?_⟩
    · rw [hrec, hdrop]; exact History.getLast?_app u e
    · rw [hrec, hdrop]; simp; omega
    · intro _; exact hrec
    · intro hc; exfalso; simp at hlt; omega
  · have hrec : (h.record e).undo_stack = h.undo_stack ++ [e] := by
      simp only [History.record, if_neg hlt]
    refine ⟨rfl, ?_, ?_, ?_, ?_⟩
    · rw [hrec]; exact History.getLast?_app _ _
    · rw [hrec]; simp at hlt ⊢; omega
    · intro hc; exfalso; simp at hlt; omega
    · intro _; exact hrec

/-- Witness for C3_record_invariant: a history with one undo entry, a stale
redo entry and `max_size = 2`, recording `edB`. -/
theorem C3_record_invariant_witness :
    1 ≤ (History.mk [edA] [edA] 2).max_size
  ∧ (History.mk [edA] [edA] 2).undo_stack.length ≤ (History.mk [edA] [edA] 2).max_size
  ∧ (((History.mk [edA] [edA] 2).record edB).redo_stack = []
    ∧ ((History.mk [edA] [edA] 2).record edB).undo_stack.getLast? = some edB
    ∧ ((History.mk [edA] [edA] 2).record edB).undo_stack.length
        ≤ (History.mk [edA] [edA] 2).max_size
    ∧ ((History.mk [edA] [edA] 2).max_size
          < (History.mk [edA] [edA] 2).undo_stack.length + 1 →
        ((History.mk [edA] [edA] 2).record edB).undo_stack
          = ((History.mk [edA] [edA] 2).undo_stack ++ [edB]).drop 1)
    ∧ ((History.mk [edA] [edA] 2).undo_stack.length + 1
          ≤ (History.mk [edA] [edA] 2).max_size →
        ((History.mk [edA] [edA] 2).record edB).undo_stack
          = (History.mk [edA] [edA] 2).undo_stack ++ [edB])) :=
  ⟨by decide, by decide,
    C3_record_invariant (History.mk [edA] [edA] 2) edB (by decide) (by decide)⟩

/-- C4: starting from an empty history and recording `N ≤ max_size` edits,
undoing `N` times and then redoing `N` times succeeds each time, the redos
return the edits in original push order, and the final state has
`undoCount = N` and `redoCount = 0`. -/
theorem C4_history_symmetry (m : Nat) (es : List Edit) (hN : es.length ≤ m) :
    (∀ x ∈ (History.undo_times
        (History.record_all (History.with_max_size m) es) es.length).1,
      x.isSome = true)
  ∧ (History.redo_times (History.undo_times
        (History.record_all (History.with_max_size m) es) es.length).2
        es.length).1 = es.map some
  ∧ (∀ x ∈ (History.redo_times (History.undo_times
        (History.record_all (History.with_max_size m) es) es.length).2
        es.length).1,
      x.isSome = true)
  ∧ (History.redo_times (History.undo_times
        (History.record_all (History.with_max_size m) es) es.length).2
        es.length).2.undo_count = es.length
  ∧ (History.redo_times (History.undo_times
        (History.record_all (History.with_max_size m) es) es.length).2
        es.length).2.redo_count = 0 := by
  have h1 : History.record_all (History.with_max_size m) es = ⟨es, [], m⟩ := by
    have := History.record_all_app m es [] (by simpa using hN)
    simpa [History.with_max_size] using this
  have h2 : History.undo_times (⟨es, [], m⟩ : History) es.length
      = (es.reverse.map some, ⟨[], es.reverse, m⟩) := by
    simpa using History.undo_times_all m es []
  have h3 : History.redo_times (⟨[], es.reverse, m⟩ : History) es.length
      = (es.map some, ⟨es, [], m⟩) := by
    have := History.redo_times_all m es.reverse []
    simpa using this
  rw [h1, h2]
  simp [h3, History.undo_count, History.redo_count]

/-- Witness for C4_history_symmetry with two edits and `max_size = 2`. -/
theorem C4_history_symmetry_witness :
    ([edA, edB] : List Edit).length ≤ 2
  ∧ ((∀ x ∈ (History.undo_times
        (History.record_all (History.with_max_size 2) [edA, edB]) 2).1,
      x.isSome = true)
    ∧ (History.redo_times (History.undo_times
          (History.record_all (History.with_max_size 2) [edA, edB]) 2).2 2).1
        = [edA, edB].map some
    ∧ (∀ x ∈ (History.redo_times (History.undo_times
          (History.record_all (History.with_max_size 2) [edA, edB]) 2).2 2).1,
      x.isSome = true)
    ∧ (History.redo_times (History.undo_times
          (History.record_all (History.with_max_size 2) [edA, edB]) 2).2
          2).2.undo_count = 2
    ∧ (History.redo_times (History.undo_times
          (History.record_all (History.with_max_size 2) [edA, edB]) 2).2
          2).2.redo_count = 0) :=
  ⟨by decide, C4_history_symmetry 2 [edA, edB] (by decide)⟩

/-! ## Frontmatter (crates/patina-core/src/frontmatter.rs)

String scanning is modelled on `List Char`: `trim_start`/`trim` drop
whitespace characters, `find` locates the first occurrence of a pattern,
`starts_with` tests a literal prefix.  The structured-data parsers
(`serde_yaml`, `toml`, composed with `serde_json::to_value`) are external
crates; they are abstracted as a parameter producing a generic tagged value. -/

/-- `serde_json::Value`: a generic tagged structured-data value.  Numbers are
modelled as integers (no claim under verification depends on float values). -/
inductive JValue where
  | null : JValue
  | bool : Bool → JValue
  | num : Int → JValue
  | str : List Char → JValue
  | arr : List JValue → JValue
  | obj : List (List Char × JValue) → JValue

/-- `FrontmatterFormat`. -/
inductive FrontmatterFormat where
  | yaml : FrontmatterFormat
  | toml : FrontmatterFormat
deriving DecidableEq, Repr

/-- `Frontmatter`: format, raw payload text, parsed key-value data. -/
structure Frontmatter where
  format : FrontmatterFormat
  raw : List Char
  data : List (List Char × JValue)

/-- External structured-data parsers (the `serde_yaml` and `toml` crates
composed with `serde_json::to_value`), abstracted: each maps a raw payload to
a generic tagged value or a parse error. -/
structure ExternalParsers where
  yaml : List Char → Except (List Char) JValue
  toml : List Char → Except (List Char) JValue

/-- `Frontmatter::value_to_hashmap`: succeeds exactly on top-level objects. -/
def value_to_hashmap : JValue → Except (List Char) (List (List Char × JValue))
  | .obj m => Except.ok m
  | _ => Except.error (String.toList "Frontmatter must be an object")

/-- `Frontmatter::parse_yaml`: run the external YAML parser, then require a
top-level object. -/
def parse_yaml (P : ExternalParsers) (raw : List Char) :
    Except (List Char) (List (List Char × JValue)) :=
  match P.yaml raw with
  | .ok v => value_to_hashmap v
  | .error e => Except.error e

/-- `Frontmatter::parse_toml`. -/
def parse_toml (P : ExternalParsers) (raw : List Char) :
    Except (List Char) (List (List Char × JValue)) :=
  match P.toml raw with
  | .ok v => value_to_hashmap v
  | .error e => Except.error e

/-- `str::trim_start`. -/
def trimStartL (s : List Char) : List Char := s.dropWhile Char.isWhitespace

/-- `str::trim`. -/
def trimL (s : List Char) : List Char :=
  ((s.dropWhile Char.isWhitespace).reverse.dropWhile Char.isWhitespace).reverse

/-- `str::starts_with` for a literal pattern. -/
def startsWithL : List Char → List Char → Bool
  | [], _ => true
  | _ :: _, [] => false
  | p :: ps, c :: cs => p == c && startsWithL ps cs

/-- `str::find` for a literal pattern: index of its first occurrence. -/
def findSub (pat : List Char) : List Char → Option Nat
  | [] => if startsWithL pat [] then some 0 else none
  | c :: rest =>
    if startsWithL pat (c :: rest) then some 0
    else (findSub pat rest).map (fun n => n + 1)

/-- The YAML opening delimiter "---". -/
def yDelim : List Char := ['-', '-', '-']

/-- The YAML closing-delimiter search pattern "\n---". -/
def yClose : List Char := ['\n', '-', '-', '-']

/-- The TOML opening delimiter "+++". -/
def tDelim : List Char := ['+', '+', '+']

/-- The TOML closing-delimiter search pattern "\n+++". -/
def tClose : List Char := ['\n', '+', '+', '+']

/-- One delimiter branch of `Frontmatter::extract`: on `trimmed`, check the
opening delimiter, search for "\n" followed by the delimiter, take the text
in between (trimmed) as the raw payload, take the text after the closing
delimiter with leading newlines stripped as the body, and parse the payload.
`none` means the branch falls through. -/
def try_extract (parse : List Char → Except (List Char) (List (List Char × JValue)))
    (fmt : FrontmatterFormat) (delim closePat : List Char) (trimmed : List Char) :
    Option (Frontmatter × List Char) :=
  if startsWithL delim trimmed then
    match findSub closePat (trimmed.drop 3) with
    | some e =>
      let raw := trimL ((trimmed.drop 3).take e)
      let body := (trimmed.drop (e + 7)).dropWhile (fun c => c == '\n')
      match parse raw with
      | .ok data => some (⟨fmt, raw, data⟩, body)
      | .error _ => none
    | none => none
  else none

/-- `Frontmatter::extract`: try the YAML branch, then the TOML branch, else
no frontmatter and the original untrimmed content as body. -/
def Frontmatter.extract (P : ExternalParsers) (content : List Char) :
    Option Frontmatter × List Char :=
  let trimmed := trimStartL content
  match try_extract (parse_yaml P) FrontmatterFormat.yaml yDelim yClose trimmed with
  | some fmb => (some fmb.1, fmb.2)
  | none =>
    match try_extract (parse_toml P) FrontmatterFormat.toml tDelim tClose trimmed with
    | some fmb => (some fmb.1, fmb.2)
    | none => (none, content)

/-- `Frontmatter::get`. -/
def Frontmatter.get (fm : Frontmatter) (key : List Char) : Option JValue :=
  List.lookup key fm.data

/-- `Frontmatter::to_string`: reconstruct the delimiter-wrapped block from
the preserved raw text. -/
def Frontmatter.to_string (fm : Frontmatter) : List Char :=
  match fm.format with
  | .yaml => ['-', '-', '-', '\n'] ++ fm.raw ++ ['\n', '-', '-', '-']
  | .toml => ['+', '+', '+', '\n'] ++ fm.raw ++ ['\n', '+', '+', '+']

/-- The delimiter-wrapped YAML block `"---\n" ++ m ++ "\n---"` of the
specification's round-trip property. -/
def delimited (m : List Char) : List Char :=
  ['-', '-', '-', '\n'] ++ m ++ ['\n', '-', '-', '-']

/-! ### Scanning lemmas -/

theorem startsWithL_self_append (p t : List Char) :
    startsWithL p (p ++ t) = true := by
  induction p with
  | nil => rfl
  | cons c cs ih => simp [startsWithL, ih]

theorem findSub_eq_none (pat : List Char) :
    ∀ s : List Char, (∀ j, startsWithL pat (s.drop j) = false) →
      findSub pat s = none := by
  intro s
  induction s with
  | nil =>
    intro h
    have h0 := h 0
    simp at h0
    simp [findSub, h0]
  | cons c rest ih =>
    intro h
    have h0 := h 0
    simp at h0
    have hrest : findSub pat rest = none := ih (fun j => h (j + 1))
    simp [findSub, h0, hrest]

theorem findSub_eq_some (pat : List Char) :
    ∀ (s : List Char) (i : Nat), startsWithL pat (s.drop i) = true →
      (∀ j < i, startsWithL pat (s.drop j) = false) →
      findSub pat s = some i := by
  intro s
  induction s with
  | nil =>
    intro i hocc hmin
    cases i with
    | zero => simp at hocc; simp [findSub, hocc]
    | succ i =>
      exfalso
      have h0 := hmin 0 (Nat.succ_pos _)
      simp at h0 hocc
      rw [hocc] at h0
      simp at h0
  | cons c rest ih =>
    intro i hocc hmin
    cases i with
    | zero =>
      simp at hocc
      simp [findSub, hocc]
    | succ i =>
      have h0 : startsWithL pat (c :: rest) = false := by
        have := hmin 0 (Nat.succ_pos _)
        simpa using this
      have hrest := ih i (by simpa using hocc)
        (fun j hj => by
          have := hmin (j + 1) (by omega)
          simpa using this)
      simp [findSub, h0, hrest]

/-- A string starting with "---" does not start with "+++", and conversely. -/
theorem yDelim_not_tDelim (s : List Char) (h : startsWithL yDelim s = true) :
    startsWithL tDelim s = false := by
  cases s with
  | nil => simp [yDelim, startsWithL] at h
  | cons c rest =>
    simp [yDelim, startsWithL] at h
    simp [tDelim, startsWithL, ← h.1]

theorem tDelim_not_yDelim (s : List Char) (h : startsWithL tDelim s = true) :
    startsWithL yDelim s = false := by
  cases s with
  | nil => simp [tDelim, startsWithL] at h
  | cons c rest =>
    simp [tDelim, startsWithL] at h
    simp [yDelim, startsWithL, ← h.1]

theorem dropAppendPlus {α : Type} (l₁ l₂ : List α) (n : Nat) :
    (l₁ ++ l₂).drop (l₁.length + n) = l₂.drop n := by
  induction l₁ with
  | nil => simp
  | cons a l ih =>
    have h : (a :: l).length + n = (l.length + n) + 1 := by simp; omega
    rw [h, List.cons_append, List.drop_succ_cons, ih]

theorem trimL_cons_nl (l : List Char) : trimL ('\n' :: l) = trimL l := by
  have hw : ('\n' : Char).isWhitespace = true := by decide
  simp [trimL, List.dropWhile_cons, hw]

/-- The string searched for the closing YAML delimiter when the content is
`delimited m ++ "\n" ++ b`: everything after the opening "---". -/
def yamlSearch (m b : List Char) : List Char :=
  '\n' :: (m ++ ('\n' :: '-' :: '-' :: '-' :: '\n' :: b))

theorem yamlSearch_drop3 (m b : List Char) :
    (delimited m ++ '\n' :: b).drop 3 = yamlSearch m b := by
  simp [delimited, yamlSearch]

theorem yamlSearch_occurrence (m b : List Char) :
    startsWithL yClose ((yamlSearch m b).drop (m.length + 1)) = true := by
  have h : (yamlSearch m b).drop (m.length + 1)
      = '\n' :: '-' :: '-' :: '-' :: '\n' :: b := by
    show (('\n' :: m) ++ ('\n' :: '-' :: '-' :: '-' :: '\n' :: b)).drop (m.length + 1)
        = '\n' :: '-' :: '-' :: '-' :: '\n' :: b
    have hlen : ('\n' :: m).length = m.length + 1 := by simp
    rw [← hlen]
    have := dropAppendPlus ('\n' :: m) ('\n' :: '-' :: '-' :: '-' :: '\n' :: b) 0
    simpa using this
  rw [h]
  simp [yClose, startsWithL]

/-- The external parsers fixed to succeed with the empty object (used as a
concrete instantiation in counterexamples and witnesses). -/
def pOkEmpty : ExternalParsers :=
  ⟨fun _ => Except.ok (JValue.obj []), fun _ => Except.ok (JValue.obj [])⟩

/-- The external parsers fixed to fail (used as a concrete instantiation). -/
def pFail : ExternalParsers :=
  ⟨fun _ => Except.error (String.toList "syntax error"),
   fun _ => Except.error (String.toList "syntax error")⟩

/-- C2: the claim says the body returned by `extract(delimited(m) + "\n" + b)`
equals `b` for every body `b`.  This is false: the code strips all leading
newlines from the body, so for the valid mapping payload "t: 1" and body
"\nx" the returned body is "x", not "\nx". -/
theorem C2_roundtrip_counterexample :
    (Frontmatter.extract pOkEmpty
        (delimited (String.toList "t: 1") ++ '\n' :: ('\n' :: 'x' :: []))).2 = ['x']
  ∧ ¬ (Frontmatter.extract pOkEmpty
        (delimited (String.toList "t: 1") ++ '\n' :: ('\n' :: 'x' :: []))).2
      = '\n' :: 'x' :: [] := by
  constructor
  · rfl
  · decide

/-- C2 (amended): for a valid metadata payload `m` — one with no surrounding
whitespace, no premature occurrence of the closing delimiter, and on which the
structured parser succeeds with an object — `extract(delimited(m) + "\n" + b)`
returns a Frontmatter whose reconstructed delimited text (`to_string`) equals
`delimited(m)` byte for byte and whose raw payload is `m`, and the body is `b`
with its leading newlines stripped (so exactly `b` whenever `b` does not begin
with a newline). -/
theorem C2_frontmatter_roundtrip (P : ExternalParsers) (m b : List Char)
    (hm : trimL m = m)
    (hv : ∀ j < m.length + 1,
        startsWithL yClose ((yamlSearch m b).drop j) = false)
    (hp : ∃ d, parse_yaml P m = Except.ok d) :
    ∃ fm : Frontmatter,
      Frontmatter.extract P (delimited m ++ '\n' :: b)
          = (some fm, b.dropWhile (fun c => c == '\n'))
      ∧ fm.format = FrontmatterFormat.yaml
      ∧ fm.raw = m
      ∧ fm.to_string = delimited m := by
  obtain ⟨d, hpd⟩ := hp
  -- the content starts with '-', so trim_start is the identity
  have htrim : trimStartL (delimited m ++ '\n' :: b) = delimited m ++ '\n' :: b := by
    have hw : ('-' : Char).isWhitespace = false := by decide
    simp [trimStartL, delimited, List.dropWhile_cons, hw]
  have hsw : startsWithL yDelim (delimited m ++ '\n' :: b) = true := by
    simp [delimited, yDelim, startsWithL]
  have hfind : findSub yClose ((delimited m ++ '\n' :: b).drop 3)
      = some (m.length + 1) := by
    rw [yamlSearch_drop3]
    exact findSub_eq_some yClose (yamlSearch m b) (m.length + 1)
      (yamlSearch_occurrence m b) hv
  have htake : (((delimited m ++ '\n' :: b).drop 3).take (m.length + 1))
      = '\n' :: m := by
    rw [yamlSearch_drop3]
    show (('\n' :: m) ++ ('\n' :: '-' :: '-' :: '-' :: '\n' :: b)).take (m.length + 1)
        = '\n' :: m
    have hlen : ('\n' :: m).length = m.length + 1 := by simp
    rw [← hlen, List.take_left]
  have hraw : trimL (((delimited m ++ '\n' :: b).drop 3).take (m.length + 1)) = m := by
    rw [htake, trimL_cons_nl, hm]
  have hbody : (delimited m ++ '\n' :: b).drop (m.length + 1 + 7) = '\n' :: b := by
    have hlen : (delimited m).length = m.length + 8 := by simp [delimited]
    have h8 : m.length + 1 + 7 = (delimited m).length + 0 := by omega
    rw [h8, dropAppendPlus]
    rfl
  have hstrip : (('\n' :: b).dropWhile (fun c => c == '\n'))
      = b.dropWhile (fun c => c == '\n') := by
    simp [List.dropWhile_cons]
  have hy : try_extract (parse_yaml P) FrontmatterFormat.yaml yDelim yClose
      (delimited m ++ '\n' :: b)
      = some (⟨FrontmatterFormat.yaml, m, d⟩, b.dropWhile (fun c => c == '\n')) := by
    unfold try_extract
    rw [if_pos hsw, hfind]
    simp only [hraw, hbody, hstrip, hpd]
  refine ⟨⟨FrontmatterFormat.yaml, m, d⟩, ?_, rfl, rfl, ?_⟩
  · unfold Frontmatter.extract
    simp only [htrim, hy]
  · simp [Frontmatter.to_string, delimited]

/-- Witness for C2_frontmatter_roundtrip at `P = pOkEmpty`, `m = "t: 1"`,
`b = "x"`. -/
theorem C2_frontmatter_roundtrip_witness :
    (trimL (String.toList "t: 1") = String.toList "t: 1"
      ∧ (∀ j < (String.toList "t: 1").length + 1,
          startsWithL yClose ((yamlSearch (String.toList "t: 1") ['x']).drop j) = false)
      ∧ ∃ d, parse_yaml pOkEmpty (String.toList "t: 1") = Except.ok d)
  ∧ ∃ fm : Frontmatter,
      Frontmatter.extract pOkEmpty (delimited (String.toList "t: 1") ++ '\n' :: ['x'])
          = (some fm, (['x'] : List Char).dropWhile (fun c => c == '\n'))
      ∧ fm.format = FrontmatterFormat.yaml
      ∧ fm.raw = String.toList "t: 1"
      ∧ fm.to_string = delimited (String.toList "t: 1") :=
  ⟨⟨by decide, by decide, ⟨[], rfl⟩⟩,
    C2_frontmatter_roundtrip pOkEmpty (String.toList "t: 1") ['x']
      (by decide) (by decide) ⟨[], rfl⟩⟩

/-- C5: when neither delimiter branch produces a payload that parses to a
top-level object (the parse fails or yields a non-object — both surface as an
`error` of the branch parser), `extract` returns no frontmatter and the body
is exactly the original, untrimmed content.  Parse failure is never fatal:
`extract` is total. -/
theorem C5_parse_failure_graceful (P : ExternalParsers) (content : List Char)
    (hy : startsWithL yDelim (trimStartL content) = true →
        ∀ e, findSub yClose ((trimStartL content).drop 3) = some e →
        ∃ msg, parse_yaml P (trimL (((trimStartL content).drop 3).take e))
          = Except.error msg)
    (ht : startsWithL tDelim (trimStartL content) = true →
        ∀ e, findSub tClose ((trimStartL content).drop 3) = some e →
        ∃ msg, parse_toml P (trimL (((trimStartL content).drop 3).take e))
          = Except.error msg) :
    Frontmatter.extract P content = (none, content) := by
  have hyb : try_extract (parse_yaml P) FrontmatterFormat.yaml yDelim yClose
      (trimStartL content) = none := by
    unfold try_extract
    by_cases hs : startsWithL yDelim (trimStartL content) = true
    · rw [if_pos hs]
      cases hfind : findSub yClose ((trimStartL content).drop 3) with
      | none => rfl
      | some e =>
        obtain ⟨msg, hmsg⟩ := hy hs e hfind
        simp only [hmsg]
    · rw [if_neg hs]
  have htb : try_extract (parse_toml P) FrontmatterFormat.toml tDelim tClose
      (trimStartL content) = none := by
    unfold try_extract
    by_cases hs : startsWithL tDelim (trimStartL content) = true
    · rw [if_pos hs]
      cases hfind : findSub tClose ((trimStartL content).drop 3) with
      | none => rfl
      | some e =>
        obtain ⟨msg, hmsg⟩ := ht hs e hfind
        simp only [hmsg]
    · rw [if_neg hs]
  unfold Frontmatter.extract
  simp only [hyb, htb]

/-- Witness for C5_parse_failure_graceful at `P = pFail` (a parser that
rejects every payload) and the content `"---\na\n---\nb"`. -/
theorem C5_parse_failure_graceful_witness :
    ((startsWithL yDelim (trimStartL (String.toList "---\na\n---\nb")) = true →
      ∀ e, findSub yClose ((trimStartL (String.toList "---\na\n---\nb")).drop 3) = some e →
        ∃ msg, parse_yaml pFail
          (trimL (((trimStartL (String.toList "---\na\n---\nb")).drop 3).take e))
          = Except.error msg)
    ∧ (startsWithL tDelim (trimStartL (String.toList "---\na\n---\nb")) = true →
      ∀ e, findSub tClose ((trimStartL (String.toList "---\na\n---\nb")).drop 3) = some e →
        ∃ msg, parse_toml pFail
          (trimL (((trimStartL (String.toList "---\na\n---\nb")).drop 3).take e))
          = Except.error msg))
  ∧ Frontmatter.extract pFail (String.toList "---\na\n---\nb")
      = (none, String.toList "---\na\n---\nb") := by
  have hy : startsWithL yDelim (trimStartL (String.toList "---\na\n---\nb")) = true →
      ∀ e, findSub yClose ((trimStartL (String.toList "---\na\n---\nb")).drop 3) = some e →
      ∃ msg, parse_yaml pFail
        (trimL (((trimStartL (String.toList "---\na\n---\nb")).drop 3).take e))
        = Except.error msg := by
    intro _ e he
    have h2 : (some 2 : Option Nat) = some e := he
    cases h2
    exact ⟨String.toList "syntax error", rfl⟩
  have ht : startsWithL tDelim (trimStartL (String.toList "---\na\n---\nb")) = true →
      ∀ e, findSub tClose ((trimStartL (String.toList "---\na\n---\nb")).drop 3) = some e →
      ∃ msg, parse_toml pFail
        (trimL (((trimStartL (String.toList "---\na\n---\nb")).drop 3).take e))
        = Except.error msg := by
    intro _ e he
    exact absurd ((rfl : (none : Option Nat) = none).symm.trans he) (by simp)
  exact ⟨⟨hy, ht⟩,
    C5_parse_failure_graceful pFail (String.toList "---\na\n---\nb") hy ht⟩

theorem all_no_occurrence (pat : List Char) (hpat : pat ≠ []) (s : List Char)
    (h : ∀ j < s.length, startsWithL pat (s.drop j) = false) :
    ∀ j, startsWithL pat (s.drop j) = false := by
  intro j
  by_cases hj : j < s.length
  · exact h j hj
  · have hnil : s.drop j = [] := List.drop_eq_nil_of_le (by omega)
    rw [hnil]
    cases pat with
    | nil => exact absurd rfl hpat
    | cons p ps => rfl

/-- C10: content whose trimmed form starts with "---" (respectively "+++")
but has no later occurrence of a newline immediately followed by that
delimiter yields no frontmatter, with the body exactly the original content:
an unterminated opening delimiter is silently treated as body text. -/
theorem C10_unterminated_delimiter (P : ExternalParsers) (content : List Char)
    (h : (startsWithL yDelim (trimStartL content) = true
          ∧ ∀ j, startsWithL yClose (((trimStartL content).drop 3).drop j) = false)
      ∨ (startsWithL tDelim (trimStartL content) = true
          ∧ ∀ j, startsWithL tClose (((trimStartL content).drop 3).drop j) = false)) :
    Frontmatter.extract P content = (none, content) := by
  cases h with
  | inl hy =>
    obtain ⟨hs, hno⟩ := hy
    have hfind : findSub yClose ((trimStartL content).drop 3) = none :=
      findSub_eq_none _ _ hno
    have hyb : try_extract (parse_yaml P) FrontmatterFormat.yaml yDelim yClose
        (trimStartL content) = none := by
      unfold try_extract
      rw [if_pos hs, hfind]
    have hst : startsWithL tDelim (trimStartL content) = false :=
      yDelim_not_tDelim _ hs
    have htb : try_extract (parse_toml P) FrontmatterFormat.toml tDelim tClose
        (trimStartL content) = none := by
      unfold try_extract
      rw [if_neg (by simp [hst])]
    unfold Frontmatter.extract
    simp only [hyb, htb]
  | inr ht =>
    obtain ⟨hs, hno⟩ := ht
    have hfind : findSub tClose ((trimStartL content).drop 3) = none :=
      findSub_eq_none _ _ hno
    have hsy : startsWithL yDelim (trimStartL content) = false :=
      tDelim_not_yDelim _ hs
    have hyb : try_extract (parse_yaml P) FrontmatterFormat.yaml yDelim yClose
        (trimStartL content) = none := by
      unfold try_extract
      rw [if_neg (by simp [hsy])]
    have htb : try_extract (parse_toml P) FrontmatterFormat.toml tDelim tClose
        (trimStartL content) = none := by
      unfold try_extract
      rw [if_pos hs, hfind]
    unfold Frontmatter.extract
    simp only [hyb, htb]

/-- Witness for C10_unterminated_delimiter at the content `"---abc"` (an
opening delimiter that is never closed) and a parser that accepts
everything. -/
theorem C10_unterminated_delimiter_witness :
    ((startsWithL yDelim (trimStartL (String.toList "---abc")) = true
      ∧ ∀ j, startsWithL yClose
          (((trimStartL (String.toList "---abc")).drop 3).drop j) = false)
    ∨ (startsWithL tDelim (trimStartL (String.toList "---abc")) = true
      ∧ ∀ j, startsWithL tClose
          (((trimStartL (String.toList "---abc")).drop 3).drop j) = false))
  ∧ Frontmatter.extract pOkEmpty (String.toList "---abc")
      = (none, String.toList "---abc") := by
  have hno : ∀ j, startsWithL yClose
      (((trimStartL (String.toList "---abc")).drop 3).drop j) = false :=
    all_no_occurrence yClose (by decide) _ (by decide)
  exact ⟨Or.inl ⟨by decide, hno⟩,
    C10_unterminated_delimiter pOkEmpty (String.toList "---abc")
      (Or.inl ⟨by decide, hno⟩)⟩

/-! ## Document (crates/patina-core/src/document.rs) -/

/-- One JSON string character, escaped as in compact JSON output. -/
def escapeJsonChar (c : Char) : List Char :=
  if c = '"' then ['\\', '"']
  else if c = '\\' then ['\\', '\\']
  else if c = '\n' then ['\\', 'n']
  else [c]

/-- A JSON string literal: quoted and escaped. -/
def quoteJson (s : List Char) : List Char :=
  '"' :: s.foldr (fun c acc => escapeJsonChar c ++ acc) ['"']

-- `serde_json::Value`'s `Display` (compact JSON), as `title.to_string()`
-- invokes it; in particular a string value renders with surrounding quotes.
mutual

/-- Render a `serde_json::Value` as compact JSON (its `Display`). -/
def jsonToString : JValue → List Char
  | .null => String.toList "null"
  | .bool true => String.toList "true"
  | .bool false => String.toList "false"
  | .num n => String.toList (toString n)
  | .str s => quoteJson s
  | .arr xs => '[' :: (jsonListToString xs ++ [']'])
  | .obj fields => Char.ofNat 123 :: (jsonObjToString fields ++ [Char.ofNat 125])

def jsonListToString : List JValue → List Char
  | [] => []
  | [x] => jsonToString x
  | x :: y :: rest => jsonToString x ++ ',' :: jsonListToString (y :: rest)

def jsonObjToString : List (List Char × JValue) → List Char
  | [] => []
  | [(k, v)] => quoteJson k ++ ':' :: jsonToString v
  | (k, v) :: x :: rest =>
    quoteJson k ++ ':' :: jsonToString v ++ ',' :: jsonObjToString (x :: rest)

end

/-- Model of `std::path::PathBuf`, abstracted to the one observation
`Document` makes of it: the optional final file-name component
(`PathBuf::file_name`; `to_string_lossy` is the identity on valid UTF-8). -/
structure PathT where
  file_name : Option (List Char)
deriving DecidableEq, Repr

/-- `std::io::ErrorKind`, reduced to the kinds `Document` distinguishes. -/
inductive IoErrorKind where
  | notFound : IoErrorKind
  | permissionDenied : IoErrorKind
  | other : IoErrorKind
deriving DecidableEq, Repr

/-- `std::io::Error`: a kind plus a message. -/
structure IoError where
  kind : IoErrorKind
  msg : List Char
deriving DecidableEq, Repr

/-- The distinct error `save` returns when the document has no path:
`io::Error::new(ErrorKind::NotFound, "Document has no path")`. -/
def noPathError : IoError :=
  ⟨IoErrorKind.notFound, String.toList "Document has no path"⟩

/-- `Document`: buffer, optional frontmatter, optional path, history, cursor,
scroll offset, and the lazily invalidated HTML cache.  (The shared
`MarkdownParser` instance is the external render engine and carries no
observable state.) -/
structure Document where
  buffer : Buffer
  frontmatter : Option Frontmatter
  path : Option PathT
  history : History
  cursor : Nat × Nat
  scroll_offset : Nat
  cached_html : Option (List Char)
  html_dirty : Bool

namespace Document

/-- `Document::new`. -/
def new : Document :=
  ⟨Buffer.new, none, none, History.new, (0, 0), 0, none, true⟩

/-- `Document::full_content`: frontmatter reconstructed text, a newline, and
the buffer text when frontmatter is present; else the buffer text alone. -/
def full_content (d : Document) : List Char :=
  match d.frontmatter with
  | some fm => fm.to_string ++ '\n' :: d.buffer.text
  | none => d.buffer.text

/-- `Document::save`: requires `path`; writes `full_content()` through the
file-system write primitive `fs` (the external, fallible `std::fs::write`)
and marks the buffer saved on success; with no path, fails with the distinct
"no path" error.  Returns the call's result paired with the document after
the call. -/
def save (fs : PathT → List Char → Except IoError Unit) (d : Document) :
    Except IoError Unit × Document :=
  match d.path with
  | some p =>
    match fs p d.full_content with
    | .ok _ => (Except.ok (), { d with buffer := d.buffer.mark_saved })
    | .error e => (Except.error e, d)
  | none => (Except.error noPathError, d)

/-- The key "title". -/
def titleKey : List Char := String.toList "title"

/-- `Document::title`: frontmatter "title" field first (rendered through the
value's `Display`), then the path's file-name component, then "Untitled". -/
def title (d : Document) : List Char :=
  match (match d.frontmatter with
          | some fm => fm.get titleKey
          | none => none) with
  | some v => jsonToString v
  | none =>
    match (match d.path with
            | some p => p.file_name
            | none => none) with
    | some name => name
    | none => String.toList "Untitled"

/-- `Document::is_modified`. -/
def is_modified (d : Document) : Bool := d.buffer.is_modified

end Document

/-- C6: `save()` with no path fails with the distinct "no path" error and
leaves the document — buffer content, modified flag, frontmatter, history —
entirely unchanged; with a path it writes `fullContent()` (frontmatter
reconstructed text + "\n" + buffer text when frontmatter is present, else the
buffer text alone), marks the buffer saved when the write succeeds, and
propagates the write's error unchanged when it fails. -/
theorem C6_save_contract (fs : PathT → List Char → Except IoError Unit)
    (d : Document) :
    (d.path = none → Document.save fs d = (Except.error noPathError, d))
  ∧ (∀ p fm, d.path = some p → d.frontmatter = some fm →
      (∀ e, fs p (fm.to_string ++ '\n' :: d.buffer.text) = Except.error e →
        Document.save fs d = (Except.error e, d))
      ∧ (fs p (fm.to_string ++ '\n' :: d.buffer.text) = Except.ok () →
        Document.save fs d
          = (Except.ok (), { d with buffer := d.buffer.mark_saved })))
  ∧ (∀ p, d.path = some p → d.frontmatter = none →
      (∀ e, fs p d.buffer.text = Except.error e →
        Document.save fs d = (Except.error e, d))
      ∧ (fs p d.buffer.text = Except.ok () →
        Document.save fs d
          = (Except.ok (), { d with buffer := d.buffer.mark_saved }))) := by
  refine ⟨?_, ?_, ?_⟩
  · intro hnone
    unfold Document.save
    rw [hnone]
  · intro p fm hp hfm
    have hfc : d.full_content = fm.to_string ++ '\n' :: d.buffer.text := by
      unfold Document.full_content
      rw [hfm]
    constructor
    · intro e he
      unfold Document.save
      rw [hp]
      simp only [hfc, he]
    · intro hok
      unfold Document.save
      rw [hp]
      simp only [hfc, hok]
  · intro p hp hfm
    have hfc : d.full_content = d.buffer.text := by
      unfold Document.full_content
      rw [hfm]
    constructor
    · intro e he
      unfold Document.save
      rw [hp]
      simp only [hfc, he]
    · intro hok
      unfold Document.save
      rw [hp]
      simp only [hfc, hok]

/-- An always-succeeding file-system write primitive. -/
def fsOk : PathT → List Char → Except IoError Unit := fun _ _ => Except.ok ()

/-- Witness for C6_save_contract: a path-less document with an
always-succeeding write primitive. -/
theorem C6_save_contract_witness :
    ((Document.new.path = none →
      Document.save fsOk Document.new
        = (Except.error noPathError, Document.new))
  ∧ (∀ p fm, Document.new.path = some p → Document.new.frontmatter = some fm →
      (∀ e, fsOk p
          (fm.to_string ++ '\n' :: Document.new.buffer.text) = Except.error e →
        Document.save fsOk Document.new = (Except.error e, Document.new))
      ∧ (fsOk p
          (fm.to_string ++ '\n' :: Document.new.buffer.text) = Except.ok () →
        Document.save fsOk Document.new
          = (Except.ok (),
              { Document.new with buffer := Document.new.buffer.mark_saved })))
  ∧ (∀ p, Document.new.path = some p → Document.new.frontmatter = none →
      (∀ e, fsOk p Document.new.buffer.text = Except.error e →
        Document.save fsOk Document.new = (Except.error e, Document.new))
      ∧ (fsOk p Document.new.buffer.text = Except.ok () →
        Document.save fsOk Document.new
          = (Except.ok (),
              { Document.new with buffer := Document.new.buffer.mark_saved })))) :=
  C6_save_contract fsOk Document.new

/-- C9: `title()` resolution order — the frontmatter's "title" field
(rendered through the value's `Display`) when frontmatter is present and has
that key; else the file-name component of the path when the path is set and
has one; else the literal "Untitled". -/
theorem C9_title_resolution (d : Document) :
    (∀ fm v, d.frontmatter = some fm → fm.get Document.titleKey = some v →
      d.title = jsonToString v)
  ∧ (∀ p n,
      (d.frontmatter = none
        ∨ ∃ fm, d.frontmatter = some fm ∧ fm.get Document.titleKey = none) →
      d.path = some p → p.file_name = some n → d.title = n)
  ∧ ((d.frontmatter = none
        ∨ ∃ fm, d.frontmatter = some fm ∧ fm.get Document.titleKey = none) →
      (d.path = none ∨ ∃ p, d.path = some p ∧ p.file_name = none) →
      d.title = String.toList "Untitled") := by
  refine ⟨?_, ?_, ?_⟩
  · intro fm v hfm hv
    simp only [Document.title, hfm, hv]
  · intro p n hfm hp hn
    cases hfm with
    | inl hnone => simp only [Document.title, hnone, hp, hn]
    | inr hsome =>
      obtain ⟨fm, hfm, hget⟩ := hsome
      simp only [Document.title, hfm, hget, hp, hn]
  · intro hfm hp
    cases hfm with
    | inl hnone =>
      cases hp with
      | inl hpn => simp only [Document.title, hnone, hpn]
      | inr hpsome =>
        obtain ⟨p, hps, hpf⟩ := hpsome
        simp only [Document.title, hnone, hps, hpf]
    | inr hsome =>
      obtain ⟨fm, hfm, hget⟩ := hsome
      cases hp with
      | inl hpn => simp only [Document.title, hfm, hget, hpn]
      | inr hpsome =>
        obtain ⟨p, hps, hpf⟩ := hpsome
        simp only [Document.title, hfm, hget, hps, hpf]

/-- Witness for C9_title_resolution: a document whose frontmatter carries a
"title" entry. -/
theorem C9_title_resolution_witness :
    (∀ fm v,
      (Document.mk Buffer.new
        (some ⟨FrontmatterFormat.yaml, String.toList "title: T",
          [(Document.titleKey, JValue.str ['T'])]⟩)
        none History.new (0, 0) 0 none true).frontmatter = some fm →
      fm.get Document.titleKey = some v →
      (Document.mk Buffer.new
        (some ⟨FrontmatterFormat.yaml, String.toList "title: T",
          [(Document.titleKey, JValue.str ['T'])]⟩)
        none History.new (0, 0) 0 none true).title = jsonToString v)
  ∧ (∀ p n,
      ((Document.mk Buffer.new
        (some ⟨FrontmatterFormat.yaml, String.toList "title: T",
          [(Document.titleKey, JValue.str ['T'])]⟩)
        none History.new (0, 0) 0 none true).frontmatter = none
        ∨ ∃ fm, (Document.mk Buffer.new
            (some ⟨FrontmatterFormat.yaml, String.toList "title: T",
              [(Document.titleKey, JValue.str ['T'])]⟩)
            none History.new (0, 0) 0 none true).frontmatter = some fm
          ∧ fm.get Document.titleKey = none) →
      (Document.mk Buffer.new
        (some ⟨FrontmatterFormat.yaml, String.toList "title: T",
          [(Document.titleKey, JValue.str ['T'])]⟩)
        none History.new (0, 0) 0 none true).path = some p →
      p.file_name = some n →
      (Document.mk Buffer.new
        (some ⟨FrontmatterFormat.yaml, String.toList "title: T",
          [(Document.titleKey, JValue.str ['T'])]⟩)
        none History.new (0, 0) 0 none true).title = n)
  ∧ (((Document.mk Buffer.new
        (some ⟨FrontmatterFormat.yaml, String.toList "title: T",
          [(Document.titleKey, JValue.str ['T'])]⟩)
        none History.new (0, 0) 0 none true).frontmatter = none
        ∨ ∃ fm, (Document.mk Buffer.new
            (some ⟨FrontmatterFormat.yaml, String.toList "title: T",
              [(Document.titleKey, JValue.str ['T'])]⟩)
            none History.new (0, 0) 0 none true).frontmatter = some fm
          ∧ fm.get Document.titleKey = none) →
      ((Document.mk Buffer.new
        (some ⟨FrontmatterFormat.yaml, String.toList "title: T",
          [(Document.titleKey, JValue.str ['T'])]⟩)
        none History.new (0, 0) 0 none true).path = none
        ∨ ∃ p, (Document.mk Buffer.new
            (some ⟨FrontmatterFormat.yaml, String.toList "title: T",
              [(Document.titleKey, JValue.str ['T'])]⟩)
            none History.new (0, 0) 0 none true).path = some p
          ∧ p.file_name = none) →
      (Document.mk Buffer.new
        (some ⟨FrontmatterFormat.yaml, String.toList "title: T",
          [(Document.titleKey, JValue.str ['T'])]⟩)
        none History.new (0, 0) 0 none true).title
        = String.toList "Untitled") :=
  C9_title_resolution
    (Document.mk Buffer.new
      (some ⟨FrontmatterFormat.yaml, String.toList "title: T",
        [(Document.titleKey, JValue.str ['T'])]⟩)
      none History.new (0, 0) 0 none true)

end Patina
